import Mathlib

/-!
Shallow embedding of the alert lifecycle manager of the MyAITgBot repository
(src/alert_system.py, with the relevant caller in src/bot.py and the price
interface of src/data_fetcher.py), together with proofs settling the frozen
claims about it.

Modelling conventions:
* A Python `dict` is an insertion-ordered association list with unique keys;
  we embed it as `List (String × β)` with first-match lookup (`alookup`) and
  first-match in-place update (`updateBucket`), which coincides with dict
  semantics on the unique-key states the code produces.
* Python floats (prices/thresholds) are embedded as exact rationals `ℚ`;
  the code only compares and copies them, so this is faithful.
* `created_at` is stored by the code as a `datetime.now().isoformat()` string
  and read back with `datetime.fromisoformat`; since `isoformat` and
  `fromisoformat` are mutually inverse, we embed the timestamp by its integer
  epoch-second value (`Int`), and `(t1 - t2).total_seconds()` becomes integer
  subtraction.  The comparison `< 86400` is unchanged.
* `asyncio.create_task(self.save_alerts())` is a fire-and-forget persistence
  write with no effect on the in-memory state; the persisted document itself
  is modelled separately (`saveDoc` / `loadStore`) for the round-trip claim.
-/

/-- An alert record, mirroring the dict literal built in
`AlertSystem.add_alert` (src/alert_system.py lines 49-57). -/
structure Alert where
  id : Nat
  user_id : Int
  coin : String
  condition : String
  price : ℚ
  created_at : Int
  triggered : Bool
deriving DecidableEq, Repr

/-- The in-memory state of `AlertSystem`: the owner-keyed buckets
(`self.alerts`, a dict from `str(user_id)` to a list of alert dicts) and
the id counter (`self.next_id`). -/
structure AlertSystem where
  alerts : List (String × List Alert)
  next_id : Nat
deriving DecidableEq, Repr

/-- First-match association-list lookup: `d.get(k)` on a Python dict. -/
def alookup {β : Type} (k : String) : List (String × β) → Option β
  | [] => none
  | kv :: rest => if kv.1 = k then some kv.2 else alookup k rest

/-- Replace the value stored under the first occurrence of key `k`:
in-place mutation `d[k] = f d[k]` of a Python dict entry. -/
def updateBucket (k : String) (f : List Alert → List Alert) :
    List (String × List Alert) → List (String × List Alert)
  | [] => []
  | kv :: rest =>
    if kv.1 = k then (kv.1, f kv.2) :: rest else kv :: updateBucket k f rest

/-- All alert records stored across all owner buckets, in iteration order
(the nested `for user_id, user_alerts in self.alerts.items(): for alert in
user_alerts` traversal). -/
def allAlerts (buckets : List (String × List Alert)) : List Alert :=
  (buckets.map Prod.snd).flatten

/-- `AlertSystem.add_alert` (src/alert_system.py lines 44-67): allocate
`next_id`, build the record with `triggered = False`, create the owner's
bucket if absent, append, return the id.  The persistence task it spawns
does not touch in-memory state. -/
def addAlert (s : AlertSystem) (userId : Int) (coin condition : String)
    (price : ℚ) (now : Int) : Nat × AlertSystem :=
  let alertId := s.next_id
  let alert : Alert :=
    { id := alertId, user_id := userId, coin := coin, condition := condition,
      price := price, created_at := now, triggered := false }
  let key := toString userId
  let buckets :=
    if (alookup key s.alerts).isSome then s.alerts else s.alerts ++ [(key, [])]
  (alertId, ⟨updateBucket key (fun b => b ++ [alert]) buckets, s.next_id + 1⟩)

/-- Drop the first alert whose `id` matches, if any: the
`for i, alert in enumerate(user_alerts): if alert['id'] == alert_id:
user_alerts.pop(i)` loop of `remove_alert`.  Returns `none` when no
record matches. -/
def removeFirst (alertId : Nat) : List Alert → Option (List Alert)
  | [] => none
  | a :: rest =>
    if a.id = alertId then some rest
    else (removeFirst alertId rest).map (fun r => a :: r)

/-- `AlertSystem.remove_alert` (src/alert_system.py lines 73-85): look up the
caller's own bucket (`self.alerts.get(str(user_id), [])`), pop the first
record with the given id and return `true`; otherwise return `false` with
the store untouched. -/
def removeAlert (s : AlertSystem) (userId : Int) (alertId : Nat) :
    Bool × AlertSystem :=
  match removeFirst alertId ((alookup (toString userId) s.alerts).getD []) with
  | none => (false, s)
  | some b =>
    (true, ⟨updateBucket (toString userId) (fun _ => b) s.alerts, s.next_id⟩)

/-- `AlertSystem.get_user_alerts` (src/alert_system.py lines 69-71). -/
def getUserAlerts (s : AlertSystem) (userId : Int) : List Alert :=
  (alookup (toString userId) s.alerts).getD []

/-- The `condition_met` computation of `check_alerts` (src/alert_system.py
lines 112-117): `above` fires at `current_price >= alert['price']`,
`below` at `current_price <= alert['price']`, anything else never. -/
def conditionMet (a : Alert) (p : ℚ) : Bool :=
  if a.condition = "above" ∧ a.price ≤ p then true
  else if a.condition = "below" ∧ p ≤ a.price then true
  else false

/-- One iteration of the inner loop of `check_alerts` (src/alert_system.py
lines 104-121) on a single alert record: skip already-triggered records,
read `current_prices.get(coin, 0)`, evaluate only when the price is positive,
and on a match flip `triggered` and emit the `(alert, current_price)` pair. -/
def evalAlert (prices : List (String × ℚ)) (a : Alert) :
    Alert × Option (Alert × ℚ) :=
  if a.triggered then (a, none)
  else
    let p := (alookup a.coin prices).getD 0
    if 0 < p then
      if conditionMet a p then
        ({ a with triggered := true }, some ({ a with triggered := true }, p))
      else (a, none)
    else (a, none)

/-- The inner loop over one owner's bucket: every record is replaced by its
evaluated form, and the fired pairs are collected in iteration order. -/
def evalBucket (prices : List (String × ℚ)) (b : List Alert) :
    List Alert × List (Alert × ℚ) :=
  (b.map (fun a => (evalAlert prices a).1),
   b.filterMap (fun a => (evalAlert prices a).2))

/-- The outer loop of `check_alerts` over all owner buckets; the global
`triggered` list is the concatenation of the per-bucket fired pairs in
dict iteration order. -/
def evalBuckets (prices : List (String × ℚ))
    (bs : List (String × List Alert)) :
    List (String × List Alert) × List (Alert × ℚ) :=
  (bs.map (fun kv => (kv.1, (evalBucket prices kv.2).1)),
   (bs.map (fun kv => (evalBucket prices kv.2).2)).flatten)

/-- The `coins_to_check` set of `check_alerts` (src/alert_system.py lines
90-96): the distinct coins of all non-triggered alerts, embedded as a
duplicate-free list. -/
def coinsToCheck (bs : List (String × List Alert)) : List String :=
  (((allAlerts bs).filter (fun a => !a.triggered)).map Alert.coin).dedup

/-- `AlertSystem._cleanup_triggered_alerts` (src/alert_system.py lines
130-140), exactly as written: an alert is retained iff it is not triggered
or `(datetime.fromisoformat(alert['created_at']) - current_time)
.total_seconds() < 86400` — note the code subtracts in this order, i.e.
`created_at - now`, not `now - created_at`. -/
def cleanupTriggeredAlerts (bs : List (String × List Alert)) (now : Int) :
    List (String × List Alert) :=
  bs.map (fun kv =>
    (kv.1, kv.2.filter (fun a => !a.triggered || decide (a.created_at - now < 86400))))

/-- `AlertSystem.check_alerts` (src/alert_system.py lines 87-128) with the
fetched price dict passed in: when no non-triggered alert exists the sweep
returns immediately with no fetch; otherwise every record is evaluated, and
if anything fired this cycle the cleanup pass runs before returning the
newly fired pairs. -/
def checkAlerts (s : AlertSystem) (prices : List (String × ℚ)) (now : Int) :
    List (Alert × ℚ) × AlertSystem :=
  if (coinsToCheck s.alerts).isEmpty then ([], s)
  else
    let res := evalBuckets prices s.alerts
    let buckets := if res.2.isEmpty then res.1 else cleanupTriggeredAlerts res.1 now
    (res.2, ⟨buckets, s.next_id⟩)

/-- `DataFetcher.get_multiple_prices` (src/data_fetcher.py lines 156-167):
one `get_crypto_data` request per element of the input list, building the
symbol-to-price dict; the per-symbol oracle `fetch` abstracts
`get_crypto_data` (which returns 0 only through the error path). -/
def getMultiplePrices (fetch : String → ℚ) (coins : List String) :
    List (String × ℚ) :=
  coins.map (fun c => (c, fetch c))

/-- `check_alerts` wired to the fetch oracle exactly as the code calls it:
`get_multiple_prices(list(coins_to_check))`. -/
def checkAlertsWith (fetch : String → ℚ) (s : AlertSystem) (now : Int) :
    List (Alert × ℚ) × AlertSystem :=
  checkAlerts s (getMultiplePrices fetch (coinsToCheck s.alerts)) now

/-- Python `str.upper()` on the ticker strings the bot handles:
character-wise uppercase. -/
def strUpper (s : String) : String := String.mk (s.data.map Char.toUpper)

/-- Python `str.lower()`: character-wise lowercase. -/
def strLower (s : String) : String := String.mk (s.data.map Char.toLower)

/-- `CryptoAIBot.set_alert` (src/bot.py lines 141-174) reduced to its store
interaction: uppercase the coin argument, lowercase the condition argument,
reject a condition other than `above`/`below`, otherwise call `add_alert`. -/
def set_alert (s : AlertSystem) (userId : Int) (coinArg conditionArg : String)
    (price : ℚ) (now : Int) : Option (Nat × AlertSystem) :=
  let coin := strUpper coinArg
  let condition := strLower conditionArg
  if condition = "above" ∨ condition = "below" then
    some (addAlert s userId coin condition price now)
  else none

/-- The ids of all stored alerts, in traversal order. -/
def idsOf (bs : List (String × List Alert)) : List Nat :=
  (allAlerts bs).map Alert.id

/-- One request of a sequence of `add_alert` calls. -/
structure AddReq where
  user_id : Int
  coin : String
  condition : String
  price : ℚ
  now : Int
deriving DecidableEq, Repr

/-- Run a sequence of `add_alert` calls against one store instance,
collecting the returned ids in order. -/
def runAdds (s : AlertSystem) : List AddReq → List Nat × AlertSystem
  | [] => ([], s)
  | r :: rest =>
    let step := addAlert s r.user_id r.coin r.condition r.price r.now
    let tail := runAdds step.2 rest
    (step.1 :: tail.1, tail.2)

/-- Iterate `check_alerts` over a sequence of cycles, each with its own
price dict and clock reading, collecting each cycle's returned list. -/
def sweeps (s : AlertSystem) :
    List (List (String × ℚ) × Int) → List (List (Alert × ℚ)) × AlertSystem
  | [] => ([], s)
  | st :: rest =>
    let step := checkAlerts s st.1 st.2
    let tail := sweeps step.2 rest
    (step.1 :: tail.1, tail.2)

/-- The JSON documents handled by `json.dumps`/`json.load` on the storage
file: objects keep key insertion order, numbers are exact (Python ints, and
floats — which `dumps`/`load` round-trip exactly via `repr`). -/
inductive Json where
  | bool (b : Bool)
  | num (q : ℚ)
  | str (s : String)
  | arr (xs : List Json)
  | obj (kvs : List (String × Json))

/-- The JSON object `save_alerts` writes for one alert record, fields in the
order of the dict literal of `add_alert`; `created_at` is carried as its
timestamp value (the ISO string and the timestamp determine each other). -/
def alertToJson (a : Alert) : Json :=
  .obj [("id", .num (a.id : ℚ)), ("user_id", .num (a.user_id : ℚ)),
        ("coin", .str a.coin), ("condition", .str a.condition),
        ("price", .num a.price), ("created_at", .num (a.created_at : ℚ)),
        ("triggered", .bool a.triggered)]

/-- `AlertSystem.save_alerts` (src/alert_system.py lines 32-42): the
document `{'alerts': self.alerts, 'next_id': self.next_id}` as written to
the storage file. -/
def saveDoc (s : AlertSystem) : Json :=
  .obj [("alerts",
         .obj (s.alerts.map (fun kv => (kv.1, .arr (kv.2.map alertToJson))))),
        ("next_id", .num (s.next_id : ℚ))]

/-- Read a JSON number back as the nonnegative integer it came from. -/
def jnat : Json → Option Nat
  | .num q => if q.den = 1 ∧ 0 ≤ q.num then some q.num.toNat else none
  | _ => none

/-- Read a JSON number back as the integer it came from. -/
def jint : Json → Option Int
  | .num q => if q.den = 1 then some q.num else none
  | _ => none

/-- Read a JSON string. -/
def jstr : Json → Option String
  | .str s => some s
  | _ => none

/-- Read a JSON boolean. -/
def jbool : Json → Option Bool
  | .bool b => some b
  | _ => none

/-- Read a JSON number. -/
def jnum : Json → Option ℚ
  | .num q => some q
  | _ => none

/-- Recover an alert record from its persisted JSON object. -/
def alertOfJson : Json → Option Alert
  | .obj [("id", j1), ("user_id", j2), ("coin", j3), ("condition", j4),
          ("price", j5), ("created_at", j6), ("triggered", j7)] => do
    let i ← jnat j1
    let u ← jint j2
    let c ← jstr j3
    let cond ← jstr j4
    let p ← jnum j5
    let t ← jint j6
    let tr ← jbool j7
    pure ⟨i, u, c, cond, p, t, tr⟩
  | _ => none

/-- Recover an owner bucket from its persisted JSON array. -/
def decodeAlertList : List Json → Option (List Alert)
  | [] => some []
  | j :: rest => do
    let a ← alertOfJson j
    let as ← decodeAlertList rest
    pure (a :: as)

/-- Recover the owner-keyed bucket mapping from its persisted JSON object. -/
def decodeBuckets : List (String × Json) → Option (List (String × List Alert))
  | [] => some []
  | kj :: rest =>
    match kj.2 with
    | .arr xs => do
      let b ← decodeAlertList xs
      let bs ← decodeBuckets rest
      pure ((kj.1, b) :: bs)
    | _ => none

/-- `AlertSystem.load_alerts` (src/alert_system.py lines 19-30) applied to a
parsed storage document: `self.alerts = data.get('alerts', {})`,
`self.next_id = data.get('next_id', 1)`, read back into the typed store. -/
def loadStore (j : Json) : Option AlertSystem :=
  match j with
  | .obj kvs =>
    match (alookup "alerts" kvs).getD (.obj []) with
    | .obj bkvs => do
      let bs ← decodeBuckets bkvs
      let n ← jnat ((alookup "next_id" kvs).getD (.num 1))
      pure ⟨bs, n⟩
    | _ => none
  | _ => none

/-! ### Helper lemmas on the association-list dict model -/

theorem alookup_append {β : Type} (k : String) (bs cs : List (String × β)) :
    alookup k (bs ++ cs) =
      match alookup k bs with
      | some v => some v
      | none => alookup k cs := by
  induction bs with
  | nil => simp [alookup]
  | cons kv rest ih =>
    by_cases h : kv.1 = k <;> simp [alookup, h, ih]

theorem alookup_updateBucket_ne (k k' : String) (f : List Alert → List Alert)
    (bs : List (String × List Alert)) (h : k' ≠ k) :
    alookup k' (updateBucket k f bs) = alookup k' bs := by
  induction bs with
  | nil => simp [updateBucket]
  | cons kv rest ih =>
    by_cases hk : kv.1 = k
    · simp [updateBucket, alookup, hk, h, Ne.symm h]
    · simp [updateBucket, alookup, hk, h, Ne.symm h, ih]

theorem alookup_updateBucket_eq (k : String) (f : List Alert → List Alert)
    (bs : List (String × List Alert)) :
    alookup k (updateBucket k f bs) = (alookup k bs).map f := by
  induction bs with
  | nil => simp [updateBucket, alookup]
  | cons kv rest ih =>
    by_cases hk : kv.1 = k <;> simp [updateBucket, alookup, hk, ih]

theorem updateBucket_append_of_none (k : String) (f : List Alert → List Alert)
    (v : List Alert) (bs : List (String × List Alert))
    (h : alookup k bs = none) :
    updateBucket k f (bs ++ [(k, v)]) = bs ++ [(k, f v)] := by
  induction bs with
  | nil => simp [updateBucket]
  | cons kv rest ih =>
    by_cases hk : kv.1 = k
    · simp [alookup, hk] at h
    · simp [alookup, hk] at h
      simp [updateBucket, hk, ih h]

theorem allAlerts_nil : allAlerts [] = [] := rfl

theorem allAlerts_cons (kv : String × List Alert)
    (bs : List (String × List Alert)) :
    allAlerts (kv :: bs) = kv.2 ++ allAlerts bs := by
  simp [allAlerts]

theorem allAlerts_append (bs cs : List (String × List Alert)) :
    allAlerts (bs ++ cs) = allAlerts bs ++ allAlerts cs := by
  simp [allAlerts]

theorem mem_allAlerts {a : Alert} {bs : List (String × List Alert)} :
    a ∈ allAlerts bs ↔ ∃ kv ∈ bs, a ∈ kv.2 := by
  simp only [allAlerts, List.mem_flatten, List.mem_map]
  constructor
  · rintro ⟨l, ⟨kv, hkv, rfl⟩, ha⟩
    exact ⟨kv, hkv, ha⟩
  · rintro ⟨kv, hkv, ha⟩
    exact ⟨kv.2, ⟨kv, hkv, rfl⟩, ha⟩

theorem allAlerts_updateBucket_push (k : String) (x : Alert) :
    ∀ bs : List (String × List Alert), (alookup k bs).isSome →
      List.Perm (allAlerts (updateBucket k (fun b => b ++ [x]) bs))
        (x :: allAlerts bs)
  | [], h => by simp [alookup] at h
  | kv :: rest, h => by
    by_cases hk : kv.1 = k
    · simp only [updateBucket, if_pos hk, allAlerts_cons]
      have : kv.2 ++ [x] ++ allAlerts rest = kv.2 ++ x :: allAlerts rest := by
        simp
      rw [this]
      exact List.perm_middle
    · simp only [alookup, if_neg hk] at h
      simp only [updateBucket, if_neg hk, allAlerts_cons]
      exact ((allAlerts_updateBucket_push k x rest h).append_left kv.2).trans
        List.perm_middle

theorem removeFirst_eq_none {alertId : Nat} :
    ∀ {b : List Alert}, removeFirst alertId b = none ↔ ∀ a ∈ b, a.id ≠ alertId
  | [] => by simp [removeFirst]
  | a :: rest => by
    by_cases h : a.id = alertId
    · simp [removeFirst, h]
    · simp [removeFirst, h, removeFirst_eq_none (b := rest)]

theorem removeFirst_eq_some {alertId : Nat} :
    ∀ {b b' : List Alert}, removeFirst alertId b = some b' →
      ∃ pre x post, x.id = alertId ∧ (∀ y ∈ pre, y.id ≠ alertId) ∧
        b = pre ++ x :: post ∧ b' = pre ++ post
  | [], _, h => by simp [removeFirst] at h
  | a :: rest, b', h => by
    by_cases ha : a.id = alertId
    · simp only [removeFirst, if_pos ha] at h
      exact ⟨[], a, rest, ha, by simp, by simp, by simp [(Option.some.inj h).symm]⟩
    · simp only [removeFirst, if_neg ha] at h
      match hrec : removeFirst alertId rest with
      | none => rw [hrec] at h; simp at h
      | some r =>
        rw [hrec] at h
        simp only [Option.map] at h
        obtain ⟨pre, x, post, hx, hpre, hrest, hr⟩ := removeFirst_eq_some hrec
        exact ⟨a :: pre, x, post, hx, by
          intro y hy
          rcases List.mem_cons.mp hy with rfl | hy
          · exact ha
          · exact hpre y hy, by simp [hrest], by rw [← Option.some.inj h, hr]; simp⟩

/-! ### Lemmas on one evaluation cycle -/

theorem evalAlert_of_triggered {prices : List (String × ℚ)} {a : Alert}
    (h : a.triggered = true) : evalAlert prices a = (a, none) := by
  simp [evalAlert, h]

theorem evalAlert_of_invalid {prices : List (String × ℚ)} {a : Alert}
    (h0 : a.triggered = false) (hp : (alookup a.coin prices).getD 0 ≤ 0) :
    evalAlert prices a = (a, none) := by
  simp [evalAlert, h0, not_lt.mpr hp]

theorem evalAlert_fst_frame (prices : List (String × ℚ)) (a : Alert) :
    (evalAlert prices a).1 = a ∨
      (a.triggered = false ∧ (evalAlert prices a).1 = { a with triggered := true }) := by
  by_cases h : a.triggered
  · left; simp [evalAlert, h]
  · simp only [Bool.not_eq_true] at h
    by_cases hp : (0 : ℚ) < (alookup a.coin prices).getD 0
    · by_cases hc : conditionMet a ((alookup a.coin prices).getD 0) = true
      · right; exact ⟨h, by simp [evalAlert, h, hp, hc]⟩
      · left; simp [evalAlert, h, hp, hc]
    · left; simp [evalAlert, h, hp]

theorem evalAlert_snd_eq_some {prices : List (String × ℚ)} {a : Alert}
    {x : Alert × ℚ} (h : (evalAlert prices a).2 = some x) :
    a.triggered = false ∧ 0 < (alookup a.coin prices).getD 0 ∧
      conditionMet a ((alookup a.coin prices).getD 0) = true ∧
      x = ({ a with triggered := true }, (alookup a.coin prices).getD 0) := by
  by_cases ht : a.triggered
  · simp [evalAlert, ht] at h
  · simp only [Bool.not_eq_true] at ht
    by_cases hp : (0 : ℚ) < (alookup a.coin prices).getD 0
    · by_cases hc : conditionMet a ((alookup a.coin prices).getD 0) = true
      · refine ⟨ht, hp, hc, ?_⟩
        simp [evalAlert, ht, hp, hc] at h
        exact h.symm
      · simp [evalAlert, ht, hp, hc] at h
    · simp [evalAlert, ht, hp] at h

theorem evalAlert_snd_of_fired {prices : List (String × ℚ)} {a : Alert}
    (h0 : a.triggered = false) (hp : 0 < (alookup a.coin prices).getD 0)
    (hc : conditionMet a ((alookup a.coin prices).getD 0) = true) :
    (evalAlert prices a).2 =
      some ({ a with triggered := true }, (alookup a.coin prices).getD 0) := by
  simp [evalAlert, h0, hp, hc]

theorem evalBuckets_fst_allAlerts (prices : List (String × ℚ)) :
    ∀ bs, allAlerts (evalBuckets prices bs).1 =
      (allAlerts bs).map (fun a => (evalAlert prices a).1)
  | [] => rfl
  | kv :: rest => by
    have ih := evalBuckets_fst_allAlerts prices rest
    simp only [evalBuckets, evalBucket, List.map_cons, allAlerts_cons,
      List.map_append] at ih ⊢
    rw [ih]

theorem evalBuckets_snd_eq (prices : List (String × ℚ)) :
    ∀ bs, (evalBuckets prices bs).2 =
      (allAlerts bs).filterMap (fun a => (evalAlert prices a).2)
  | [] => rfl
  | kv :: rest => by
    have ih := evalBuckets_snd_eq prices rest
    simp only [evalBuckets, evalBucket, List.map_cons, List.flatten_cons,
      allAlerts_cons, List.filterMap_append] at ih ⊢
    rw [ih]

theorem cleanup_allAlerts (now : Int) :
    ∀ bs, allAlerts (cleanupTriggeredAlerts bs now) =
      (allAlerts bs).filter
        (fun a => !a.triggered || decide (a.created_at - now < 86400))
  | [] => rfl
  | kv :: rest => by
    have ih := cleanup_allAlerts now rest
    simp only [cleanupTriggeredAlerts, List.map_cons, allAlerts_cons,
      List.filter_append] at ih ⊢
    rw [ih]

theorem mem_coinsToCheck {c : String} {bs : List (String × List Alert)} :
    c ∈ coinsToCheck bs ↔ ∃ a ∈ allAlerts bs, a.triggered = false ∧ a.coin = c := by
  simp only [coinsToCheck, List.mem_dedup, List.mem_map, List.mem_filter,
    Bool.not_eq_true']
  constructor
  · rintro ⟨a, ⟨ha, ht⟩, rfl⟩; exact ⟨a, ha, ht, rfl⟩
  · rintro ⟨a, ha, ht, rfl⟩; exact ⟨a, ⟨ha, ht⟩, rfl⟩

theorem coinsToCheck_nodup (bs : List (String × List Alert)) :
    (coinsToCheck bs).Nodup := List.nodup_dedup _

theorem checkAlerts_of_empty {s : AlertSystem} {prices : List (String × ℚ)}
    {now : Int} (h : (coinsToCheck s.alerts).isEmpty) :
    checkAlerts s prices now = ([], s) := by
  unfold checkAlerts; simp [h]

theorem checkAlerts_fst_eq {s : AlertSystem} {prices : List (String × ℚ)}
    {now : Int} (h : ¬(coinsToCheck s.alerts).isEmpty) :
    (checkAlerts s prices now).1 = (evalBuckets prices s.alerts).2 := by
  unfold checkAlerts; simp [h]

theorem checkAlerts_snd_alerts_eq {s : AlertSystem} {prices : List (String × ℚ)}
    {now : Int} (h : ¬(coinsToCheck s.alerts).isEmpty) :
    (checkAlerts s prices now).2.alerts =
      if (evalBuckets prices s.alerts).2.isEmpty
        then (evalBuckets prices s.alerts).1
        else cleanupTriggeredAlerts (evalBuckets prices s.alerts).1 now := by
  unfold checkAlerts; simp [h]

theorem checkAlerts_next_id (s : AlertSystem) (prices : List (String × ℚ))
    (now : Int) : (checkAlerts s prices now).2.next_id = s.next_id := by
  by_cases h : (coinsToCheck s.alerts).isEmpty
  · rw [checkAlerts_of_empty h]
  · unfold checkAlerts; simp [h]

theorem checkAlerts_fst_mem {s : AlertSystem} {prices : List (String × ℚ)}
    {now : Int} {x : Alert × ℚ} (hx : x ∈ (checkAlerts s prices now).1) :
    ∃ a ∈ allAlerts s.alerts, a.triggered = false ∧
      0 < (alookup a.coin prices).getD 0 ∧
      conditionMet a ((alookup a.coin prices).getD 0) = true ∧
      x = ({ a with triggered := true }, (alookup a.coin prices).getD 0) := by
  by_cases he : (coinsToCheck s.alerts).isEmpty
  · rw [checkAlerts_of_empty he] at hx; simp at hx
  · rw [checkAlerts_fst_eq he, evalBuckets_snd_eq] at hx
    obtain ⟨a, ha, hfa⟩ := List.mem_filterMap.mp hx
    obtain ⟨ht, hp, hc, hxa⟩ := evalAlert_snd_eq_some hfa
    exact ⟨a, ha, ht, hp, hc, hxa⟩

theorem checkAlerts_snd_mem {s : AlertSystem} {prices : List (String × ℚ)}
    {now : Int} {b : Alert}
    (hb : b ∈ allAlerts (checkAlerts s prices now).2.alerts) :
    ∃ a ∈ allAlerts s.alerts,
      b = a ∨ (a.triggered = false ∧ b = { a with triggered := true }) := by
  by_cases he : (coinsToCheck s.alerts).isEmpty
  · rw [checkAlerts_of_empty he] at hb
    exact ⟨b, hb, Or.inl rfl⟩
  · rw [checkAlerts_snd_alerts_eq he] at hb
    have hb' : b ∈ allAlerts (evalBuckets prices s.alerts).1 := by
      by_cases ht : (evalBuckets prices s.alerts).2.isEmpty
      · rw [if_pos ht] at hb; exact hb
      · rw [if_neg ht, cleanup_allAlerts] at hb
        exact (List.mem_filter.mp hb).1
    rw [evalBuckets_fst_allAlerts] at hb'
    obtain ⟨a, ha, rfl⟩ := List.mem_map.mp hb'
    rcases evalAlert_fst_frame prices a with h | ⟨h0, h⟩
    · exact ⟨a, ha, Or.inl h⟩
    · exact ⟨a, ha, Or.inr ⟨h0, h⟩⟩

theorem checkAlerts_retains_unfired {s : AlertSystem}
    {prices : List (String × ℚ)} {now : Int} {a : Alert}
    (ha : a ∈ allAlerts s.alerts) (h0 : a.triggered = false)
    (hkeep : (evalAlert prices a).1 = a) :
    a ∈ allAlerts (checkAlerts s prices now).2.alerts := by
  by_cases he : (coinsToCheck s.alerts).isEmpty
  · rw [checkAlerts_of_empty he]; exact ha
  · rw [checkAlerts_snd_alerts_eq he]
    have hmem : a ∈ allAlerts (evalBuckets prices s.alerts).1 := by
      rw [evalBuckets_fst_allAlerts]
      exact List.mem_map.mpr ⟨a, ha, hkeep⟩
    by_cases ht : (evalBuckets prices s.alerts).2.isEmpty
    · rw [if_pos ht]; exact hmem
    · rw [if_neg ht, cleanup_allAlerts]
      exact List.mem_filter.mpr ⟨hmem, by simp [h0]⟩

theorem checkAlerts_fires {s : AlertSystem} {prices : List (String × ℚ)}
    {now : Int} {a : Alert} {x : Alert × ℚ}
    (ha : a ∈ allAlerts s.alerts) (h0 : a.triggered = false)
    (hf : (evalAlert prices a).2 = some x) :
    x ∈ (checkAlerts s prices now).1 := by
  have hne : ¬(coinsToCheck s.alerts).isEmpty := by
    have hc : a.coin ∈ coinsToCheck s.alerts :=
      mem_coinsToCheck.mpr ⟨a, ha, h0, rfl⟩
    intro hcon
    rw [List.isEmpty_iff] at hcon
    simp [hcon] at hc
  rw [checkAlerts_fst_eq hne, evalBuckets_snd_eq]
  exact List.mem_filterMap.mpr ⟨a, ha, hf⟩

/-! ### Lemmas on add_alert and id allocation -/

theorem addAlert_fst (s : AlertSystem) (uid : Int) (c cond : String) (p : ℚ)
    (t : Int) : (addAlert s uid c cond p t).1 = s.next_id := rfl

theorem addAlert_next_id (s : AlertSystem) (uid : Int) (c cond : String)
    (p : ℚ) (t : Int) :
    (addAlert s uid c cond p t).2.next_id = s.next_id + 1 := rfl

theorem addAlert_bucket (s : AlertSystem) (uid : Int) (c cond : String)
    (p : ℚ) (t : Int) :
    alookup (toString uid) (addAlert s uid c cond p t).2.alerts =
      some (((alookup (toString uid) s.alerts).getD []) ++
        [⟨s.next_id, uid, c, cond, p, t, false⟩]) := by
  unfold addAlert
  by_cases h : (alookup (toString uid) s.alerts).isSome
  · simp only [if_pos h]
    rw [alookup_updateBucket_eq]
    obtain ⟨b, hb⟩ := Option.isSome_iff_exists.mp h
    rw [hb]
    simp
  · simp only [if_neg h]
    rw [alookup_updateBucket_eq, alookup_append]
    rw [Option.not_isSome_iff_eq_none] at h
    rw [h]
    simp [alookup]

theorem allAlerts_addAlert (s : AlertSystem) (uid : Int) (c cond : String)
    (p : ℚ) (t : Int) :
    List.Perm (allAlerts (addAlert s uid c cond p t).2.alerts)
      ((⟨s.next_id, uid, c, cond, p, t, false⟩ : Alert) :: allAlerts s.alerts) := by
  unfold addAlert
  by_cases h : (alookup (toString uid) s.alerts).isSome
  · simp only [if_pos h]
    exact allAlerts_updateBucket_push _ _ _ h
  · simp only [if_neg h]
    rw [Option.not_isSome_iff_eq_none] at h
    rw [updateBucket_append_of_none _ _ _ _ h, allAlerts_append]
    simp only [allAlerts_cons, allAlerts_nil, List.nil_append, List.append_nil]
    exact List.perm_append_singleton _ _

theorem addAlert_id_invariant {s : AlertSystem} (uid : Int) (c cond : String)
    (p : ℚ) (t : Int)
    (h1 : ∀ a ∈ allAlerts s.alerts, a.id < s.next_id)
    (h2 : (idsOf s.alerts).Nodup) :
    (∀ a ∈ allAlerts (addAlert s uid c cond p t).2.alerts,
        a.id < (addAlert s uid c cond p t).2.next_id) ∧
      (idsOf (addAlert s uid c cond p t).2.alerts).Nodup := by
  have hperm := allAlerts_addAlert s uid c cond p t
  constructor
  · intro a ha
    rw [addAlert_next_id]
    rcases List.mem_cons.mp (hperm.mem_iff.mp ha) with rfl | hmem
    · exact Nat.lt_succ_self _
    · exact Nat.lt_succ_of_lt (h1 a hmem)
  · have hidperm : List.Perm (idsOf (addAlert s uid c cond p t).2.alerts)
        (s.next_id :: idsOf s.alerts) := by
      simpa [idsOf] using hperm.map Alert.id
    refine hidperm.nodup_iff.mpr (List.nodup_cons.mpr ⟨?_, h2⟩)
    intro hmem
    obtain ⟨a, ha, hid⟩ := List.mem_map.mp hmem
    exact absurd hid (Nat.ne_of_lt (h1 a ha))

/-! ### Lemmas on sequences of operations -/

theorem runAdds_fst_bound : ∀ (rs : List AddReq) (s : AlertSystem),
    ∀ j ∈ (runAdds s rs).1, s.next_id ≤ j
  | [], _ => by simp [runAdds]
  | r :: rest, s => by
    intro j hj
    simp only [runAdds] at hj
    rcases List.mem_cons.mp hj with rfl | hj
    · exact le_refl _
    · have hb := runAdds_fst_bound rest _ j hj
      rw [addAlert_next_id] at hb
      exact le_of_lt (Nat.lt_of_succ_le hb)

theorem runAdds_fst_pairwise : ∀ (rs : List AddReq) (s : AlertSystem),
    ((runAdds s rs).1).Pairwise (· < ·)
  | [], _ => by simp [runAdds]
  | r :: rest, s => by
    simp only [runAdds]
    refine List.pairwise_cons.mpr ⟨?_, runAdds_fst_pairwise rest _⟩
    intro j hj
    have hb := runAdds_fst_bound rest _ j hj
    rw [addAlert_next_id] at hb
    exact Nat.lt_of_succ_le hb

theorem runAdds_invariant : ∀ (rs : List AddReq) (s : AlertSystem),
    (∀ a ∈ allAlerts s.alerts, a.id < s.next_id) → (idsOf s.alerts).Nodup →
    (∀ a ∈ allAlerts (runAdds s rs).2.alerts,
        a.id < (runAdds s rs).2.next_id) ∧
      (idsOf (runAdds s rs).2.alerts).Nodup
  | [], _, h1, h2 => ⟨h1, h2⟩
  | r :: rest, s, h1, h2 => by
    simp only [runAdds]
    obtain ⟨h1', h2'⟩ :=
      addAlert_id_invariant r.user_id r.coin r.condition r.price r.now h1 h2
    exact runAdds_invariant rest _ h1' h2'

theorem sweeps_no_rereport (i : Nat) :
    ∀ (steps : List (List (String × ℚ) × Int)) (s : AlertSystem),
      (∀ a ∈ allAlerts s.alerts, a.id = i → a.triggered = true) →
      ∀ out ∈ (sweeps s steps).1, ∀ bp ∈ out, bp.1.id ≠ i
  | [], _, _ => by simp [sweeps]
  | st :: rest, s, h => by
    intro out hout bp hbp
    simp only [sweeps] at hout
    rcases List.mem_cons.mp hout with rfl | hout
    · obtain ⟨a, ha, ht, _, _, hbp_eq⟩ := checkAlerts_fst_mem hbp
      intro hid
      have haid : a.id = i := by
        rw [hbp_eq] at hid
        simpa using hid
      have := h a ha haid
      rw [ht] at this
      exact Bool.false_ne_true this
    · have hinv : ∀ b ∈ allAlerts (checkAlerts s st.1 st.2).2.alerts,
          b.id = i → b.triggered = true := by
        intro b hb hbid
        obtain ⟨a, ha, hcase⟩ := checkAlerts_snd_mem hb
        rcases hcase with heq | ⟨_, heq⟩
        · rw [heq] at hbid ⊢
          exact h a ha hbid
        · rw [heq]
      exact sweeps_no_rereport i rest _ hinv out hout bp hbp

/-! ### Lemmas on persistence -/

theorem alertOfJson_alertToJson (a : Alert) :
    alertOfJson (alertToJson a) = some a := by
  simp [alertToJson, alertOfJson, jnat, jint, jstr, jbool, jnum,
    Rat.den_natCast, Rat.num_natCast, Rat.den_intCast, Rat.num_intCast,
    Int.toNat_natCast]

theorem decodeAlertList_roundtrip : ∀ as : List Alert,
    decodeAlertList (as.map alertToJson) = some as
  | [] => rfl
  | a :: rest => by
    simp [decodeAlertList, alertOfJson_alertToJson,
      decodeAlertList_roundtrip rest]

theorem decodeBuckets_roundtrip : ∀ bs : List (String × List Alert),
    decodeBuckets
        (bs.map (fun kv => (kv.1, Json.arr (kv.2.map alertToJson)))) =
      some bs
  | [] => rfl
  | kv :: rest => by
    simp [decodeBuckets, decodeAlertList_roundtrip,
      decodeBuckets_roundtrip rest]

/-! ### The trigger-condition characterization -/

theorem conditionMet_iff {a : Alert} {p : ℚ} :
    conditionMet a p = true ↔
      (a.condition = "above" ∧ a.price ≤ p) ∨
      (a.condition = "below" ∧ p ≤ a.price) := by
  unfold conditionMet
  split_ifs with h1 h2
  · simpa using Or.inl h1
  · simpa using Or.inr h2
  · simp only [Bool.false_eq_true, false_iff]
    rintro (hc | hc)
    · exact h1 hc
    · exact h2 hc

/-! ### Claim theorems -/

/-- C1: the claim (and the cleanup docstring) says a triggered alert whose
`created_at` lies 25 hours in the past is purged by the next sweep.  The
code subtracts in the wrong order (`created_at - now` instead of
`now - created_at`), so in a sweep in which something fires (hence
`_cleanup_triggered_alerts` does run) the stale triggered alert is
nevertheless retained: with `now = 90000` (25 h after creation time 0) the
triggered alert id 1 survives even though 25 h ≥ 24 h have elapsed. -/
theorem c1_stale_triggered_alert_survives_sweep :
    (checkAlerts
        ⟨[("7", [⟨1, 7, "BTC", "above", 99999, 0, true⟩,
                 ⟨2, 7, "BTC", "above", 100, 90000, false⟩])], 3⟩
        [("BTC", 100)] 90000).1 ≠ [] ∧
    (⟨1, 7, "BTC", "above", 99999, 0, true⟩ : Alert) ∈
      allAlerts (checkAlerts
        ⟨[("7", [⟨1, 7, "BTC", "above", 99999, 0, true⟩,
                 ⟨2, 7, "BTC", "above", 100, 90000, false⟩])], 3⟩
        [("BTC", 100)] 90000).2.alerts ∧
    ¬((90000 : Int) - 0 < 86400) := by decide

/-- C2 counterexample: `add_alert` itself performs no case normalization —
called with the lowercase symbol "btc" it stores "btc" verbatim, not the
uppercase-normalized form. -/
theorem c2_add_alert_keeps_symbol_verbatim :
    ((addAlert ⟨[], 1⟩ 7 "btc" "above" 100 0).2.alerts =
        [("7", [⟨1, 7, "btc", "above", 100, 0, false⟩])]) ∧
      ("btc" : String) ≠ strUpper "btc" := by decide

/-- C2 (amended): `add_alert` stores the symbol exactly as passed; the
uppercase normalization happens in the bot's `set_alert` handler
(src/bot.py line 151, `context.args[0].upper()`), so every alert record
created through the bot command stores the uppercase form of the user's
symbol argument. -/
theorem c2_bot_handler_stores_uppercased_symbol (s : AlertSystem) (uid : Int)
    (coinArg conditionArg : String) (price : ℚ) (now : Int)
    (p : Nat × AlertSystem)
    (h : set_alert s uid coinArg conditionArg price now = some p) :
    alookup (toString uid) p.2.alerts =
      some (((alookup (toString uid) s.alerts).getD []) ++
        [⟨s.next_id, uid, strUpper coinArg, strLower conditionArg,
          price, now, false⟩]) := by
  unfold set_alert at h
  dsimp only at h
  split_ifs at h with hc
  · cases Option.some.inj h
    exact addAlert_bucket s uid (strUpper coinArg) (strLower conditionArg)
      price now

/-- Witness for C2: a concrete `set_alert` call with lowercase "btc" and
mixed-case "Above" stores the uppercased symbol "BTC". -/
theorem c2_witness :
    set_alert ⟨[], 1⟩ 7 "btc" "Above" 100 0 =
        some (1, ⟨[("7", [⟨1, 7, "BTC", "above", 100, 0, false⟩])], 2⟩) ∧
      alookup (toString (7 : Int))
          (⟨[("7", [⟨1, 7, "BTC", "above", 100, 0, false⟩])], 2⟩ :
            AlertSystem).alerts =
        some (((alookup (toString (7 : Int))
            (⟨[], 1⟩ : AlertSystem).alerts).getD []) ++
          [⟨1, 7, strUpper "btc", strLower "Above", 100, 0, false⟩]) :=
  ⟨by decide,
   c2_bot_handler_stores_uppercased_symbol ⟨[], 1⟩ 7 "btc" "Above" 100 0
     (1, ⟨[("7", [⟨1, 7, "BTC", "above", 100, 0, false⟩])], 2⟩) (by decide)⟩

/-- C4: persist/load round-trip — the document `save_alerts` writes, read
back by `load_alerts` into a fresh store, reproduces the identical
owner-to-alert-list mapping (same records, same order) and the same
`next_id`. -/
theorem c4_save_load_roundtrip (s : AlertSystem) :
    loadStore (saveDoc s) = some s := by
  simp [loadStore, saveDoc, alookup, decodeBuckets_roundtrip, jnat,
    Rat.den_natCast, Rat.num_natCast, Int.toNat_natCast]

/-- C7: boundary-inclusive trigger conditions — for a non-triggered alert
whose symbol has a positive observed price, the alert fires exactly when
its condition is `above` and the price is ≥ the threshold, or `below` and
the price is ≤ the threshold; firing coincides with the `triggered` flag
being set.  At a price exactly equal to the threshold both directions
fire. -/
theorem c7_boundary_inclusive_trigger (prices : List (String × ℚ)) (a : Alert)
    (h0 : a.triggered = false) (hp : 0 < (alookup a.coin prices).getD 0) :
    ((evalAlert prices a).2.isSome = true ↔
        (a.condition = "above" ∧ a.price ≤ (alookup a.coin prices).getD 0) ∨
        (a.condition = "below" ∧ (alookup a.coin prices).getD 0 ≤ a.price)) ∧
      (evalAlert prices a).1.triggered = (evalAlert prices a).2.isSome := by
  by_cases hc : conditionMet a ((alookup a.coin prices).getD 0) = true
  · constructor
    · rw [evalAlert_snd_of_fired h0 hp hc]
      simpa using conditionMet_iff.mp hc
    · rw [evalAlert_snd_of_fired h0 hp hc]
      simp [evalAlert, h0, hp, hc]
  · have hnone : evalAlert prices a = (a, none) := by
      simp [evalAlert, h0, hp, hc]
    rw [hnone]
    constructor
    · simp only [Option.isSome_none, Bool.false_eq_true, false_iff]
      intro hdisj
      exact hc (conditionMet_iff.mpr hdisj)
    · simpa using h0

/-- Witness for C7: an `above` alert with threshold 50000 and observed
price exactly 50000 — the boundary — fires. -/
theorem c7_witness :
    (⟨1, 7, "BTC", "above", 50000, 0, false⟩ : Alert).triggered = false ∧
    ((0 : ℚ) < (alookup "BTC" [("BTC", (50000 : ℚ))]).getD 0) ∧
    (((evalAlert [("BTC", (50000 : ℚ))]
          ⟨1, 7, "BTC", "above", 50000, 0, false⟩).2.isSome = true ↔
        (("above" : String) = "above" ∧
          (50000 : ℚ) ≤ (alookup "BTC" [("BTC", (50000 : ℚ))]).getD 0) ∨
        (("above" : String) = "below" ∧
          (alookup "BTC" [("BTC", (50000 : ℚ))]).getD 0 ≤ 50000)) ∧
      (evalAlert [("BTC", (50000 : ℚ))]
          ⟨1, 7, "BTC", "above", 50000, 0, false⟩).1.triggered =
        (evalAlert [("BTC", (50000 : ℚ))]
          ⟨1, 7, "BTC", "above", 50000, 0, false⟩).2.isSome) :=
  ⟨rfl, by decide,
   c7_boundary_inclusive_trigger [("BTC", (50000 : ℚ))]
     ⟨1, 7, "BTC", "above", 50000, 0, false⟩ rfl (by decide)⟩

/-- C3: idempotence of evaluation — if every stored alert with id `i` is
already triggered, no sweep of any subsequent sequence of price cycles ever
returns a pair carrying id `i`; and in any single sweep the returned list
contains only alerts that transitioned from non-triggered to triggered in
that cycle. -/
theorem c3_triggered_alerts_never_rereported (s : AlertSystem) (i : Nat)
    (h : ∀ a ∈ allAlerts s.alerts, a.id = i → a.triggered = true)
    (steps : List (List (String × ℚ) × Int)) :
    (∀ out ∈ (sweeps s steps).1, ∀ bp ∈ out, bp.1.id ≠ i) ∧
    (∀ prices now, ∀ bp ∈ (checkAlerts s prices now).1,
      ∃ a ∈ allAlerts s.alerts, a.triggered = false ∧
        bp.1 = { a with triggered := true }) :=
  ⟨sweeps_no_rereport i steps s h,
   fun prices now bp hbp => by
     obtain ⟨a, ha, ht, _, _, heq⟩ := checkAlerts_fst_mem hbp
     exact ⟨a, ha, ht, by rw [heq]⟩⟩

/-- Witness for C3: a store holding one already-triggered alert (id 1) and
two sweep cycles whose prices would match its condition never re-report
id 1. -/
theorem c3_witness :
    (∀ a ∈ allAlerts ([("7", [⟨1, 7, "BTC", "above", 100, 0, true⟩])] :
        List (String × List Alert)), a.id = 1 → a.triggered = true) ∧
    ((∀ out ∈ (sweeps ⟨[("7", [⟨1, 7, "BTC", "above", 100, 0, true⟩])], 2⟩
          [([("BTC", 200)], 0), ([("BTC", 50)], 0)]).1,
        ∀ bp ∈ out, bp.1.id ≠ 1) ∧
      (∀ prices now, ∀ bp ∈ (checkAlerts
          ⟨[("7", [⟨1, 7, "BTC", "above", 100, 0, true⟩])], 2⟩
          prices now).1,
        ∃ a ∈ allAlerts ([("7", [⟨1, 7, "BTC", "above", 100, 0, true⟩])] :
            List (String × List Alert)),
          a.triggered = false ∧ bp.1 = { a with triggered := true })) :=
  ⟨by decide,
   c3_triggered_alerts_never_rereported
     ⟨[("7", [⟨1, 7, "BTC", "above", 100, 0, true⟩])], 2⟩ 1 (by decide)
     [([("BTC", 200)], 0), ([("BTC", 50)], 0)]⟩

/-- C5: the ids returned by any sequence of `add_alert` calls on one store
are strictly increasing in call order (for any interleaving of owners), and
from any store satisfying the id invariant — every stored id below
`next_id` and stored ids duplicate-free, as holds for a fresh store — the
stored ids stay pairwise distinct, so no id is reused. -/
theorem c5_ids_strictly_increasing_and_unique (s : AlertSystem)
    (rs : List AddReq)
    (h1 : ∀ a ∈ allAlerts s.alerts, a.id < s.next_id)
    (h2 : (idsOf s.alerts).Nodup) :
    ((runAdds s rs).1).Pairwise (· < ·) ∧
      (idsOf (runAdds s rs).2.alerts).Nodup :=
  ⟨runAdds_fst_pairwise rs s, (runAdds_invariant rs s h1 h2).2⟩

/-- Witness for C5: three adds interleaving owners 7, 8, 7 on a fresh store
yield strictly increasing ids and duplicate-free stored ids. -/
theorem c5_witness :
    (∀ a ∈ allAlerts (⟨[], 1⟩ : AlertSystem).alerts,
        a.id < (⟨[], 1⟩ : AlertSystem).next_id) ∧
    (idsOf (⟨[], 1⟩ : AlertSystem).alerts).Nodup ∧
    (((runAdds ⟨[], 1⟩ [⟨7, "BTC", "above", 100, 0⟩,
        ⟨8, "ETH", "below", 50, 0⟩, ⟨7, "DOGE", "above", 1, 0⟩]).1).Pairwise
          (· < ·) ∧
      (idsOf (runAdds ⟨[], 1⟩ [⟨7, "BTC", "above", 100, 0⟩,
        ⟨8, "ETH", "below", 50, 0⟩,
        ⟨7, "DOGE", "above", 1, 0⟩]).2.alerts).Nodup) :=
  ⟨by decide, by decide,
   c5_ids_strictly_increasing_and_unique ⟨[], 1⟩
     [⟨7, "BTC", "above", 100, 0⟩, ⟨8, "ETH", "below", 50, 0⟩,
      ⟨7, "DOGE", "above", 1, 0⟩] (by decide) (by decide)⟩

/-- C6: `remove_alert` touches only the caller's bucket and is atomic —
`next_id` never changes; a `false` return leaves the whole store unchanged;
it returns `true` exactly when the caller's own bucket holds an alert with
the requested id (an id stored under a different owner yields `false`);
every other owner's bucket is untouched in all cases; and on success
exactly the first matching record of the caller's bucket is removed. -/
theorem c6_remove_only_owner_bucket (s : AlertSystem) (uid : Int)
    (aid : Nat) :
    (removeAlert s uid aid).2.next_id = s.next_id ∧
    ((removeAlert s uid aid).1 = false → (removeAlert s uid aid).2 = s) ∧
    ((removeAlert s uid aid).1 = true ↔
      ∃ a ∈ getUserAlerts s uid, a.id = aid) ∧
    (∀ k, k ≠ toString uid →
      alookup k (removeAlert s uid aid).2.alerts = alookup k s.alerts) ∧
    ((removeAlert s uid aid).1 = true →
      ∃ pre x post, x.id = aid ∧ (∀ y ∈ pre, y.id ≠ aid) ∧
        getUserAlerts s uid = pre ++ x :: post ∧
        getUserAlerts (removeAlert s uid aid).2 uid = pre ++ post) := by
  rcases hrf : removeFirst aid ((alookup (toString uid) s.alerts).getD [])
    with _ | b
  · have hres : removeAlert s uid aid = (false, s) := by
      unfold removeAlert; rw [hrf]
    rw [hres]
    refine ⟨rfl, fun _ => rfl, ?_, fun k _ => rfl, by simp⟩
    simp only [Bool.false_eq_true, false_iff]
    rintro ⟨a, ha, haid⟩
    exact removeFirst_eq_none.mp hrf a ha haid
  · have hres : removeAlert s uid aid =
        (true,
         ⟨updateBucket (toString uid) (fun _ => b) s.alerts, s.next_id⟩) := by
      unfold removeAlert; rw [hrf]
    obtain ⟨pre, x, post, hx, hpre, hbucket, hb⟩ := removeFirst_eq_some hrf
    rw [hres]
    refine ⟨rfl, by simp, ?_, ?_, ?_⟩
    · simp only [true_iff]
      refine ⟨x, ?_, hx⟩
      show x ∈ (alookup (toString uid) s.alerts).getD []
      rw [hbucket]
      simp
    · intro k hk
      exact alookup_updateBucket_ne _ _ _ _ hk
    · intro _
      refine ⟨pre, x, post, hx, hpre, hbucket, ?_⟩
      show (alookup (toString uid)
          (updateBucket (toString uid) (fun _ => b) s.alerts)).getD [] =
        pre ++ post
      rw [alookup_updateBucket_eq]
      cases hl : alookup (toString uid) s.alerts with
      | none =>
        rw [hl] at hbucket
        simp at hbucket
      | some b0 => simp [hb]

/-- C8: each sweep requests prices for exactly the set of distinct symbols
of non-triggered alerts across all owners — the request list is
duplicate-free, its members are exactly that symbol set, and
`get_multiple_prices` issues one request per list entry — and when the set
is empty the sweep returns an empty result with the store unchanged, so no
price request is issued. -/
theorem c8_symbol_dedup_and_empty_shortcircuit (s : AlertSystem)
    (fetch : String → ℚ) :
    (coinsToCheck s.alerts).Nodup ∧
    (∀ c, c ∈ coinsToCheck s.alerts ↔
      ∃ a ∈ allAlerts s.alerts, a.triggered = false ∧ a.coin = c) ∧
    ((getMultiplePrices fetch (coinsToCheck s.alerts)).map Prod.fst =
      coinsToCheck s.alerts) ∧
    (coinsToCheck s.alerts = [] →
      ∀ prices now, checkAlerts s prices now = ([], s)) := by
  refine ⟨coinsToCheck_nodup _, fun c => mem_coinsToCheck, ?_, ?_⟩
  · have hcomp : (Prod.fst ∘ fun c : String => (c, fetch c)) = id := rfl
    simp [getMultiplePrices, hcomp]
  · intro h prices now
    exact checkAlerts_of_empty (by simp [h])

/-- C9: an alert whose symbol has a missing or non-positive observed price
this cycle is left entirely unchanged by the sweep (the identical record
remains stored, still non-triggered) and is not in the returned list; every
returned pair has a positive observed price, so an invalid price is never
treated as a trigger; and alerts on other symbols with valid prices still
fire normally in the same cycle. -/
theorem c9_invalid_price_skips_symbol (s : AlertSystem)
    (prices : List (String × ℚ)) (now : Int) (a : Alert)
    (ha : a ∈ allAlerts s.alerts) (h0 : a.triggered = false)
    (hp : (alookup a.coin prices).getD 0 ≤ 0) :
    a ∈ allAlerts (checkAlerts s prices now).2.alerts ∧
    (∀ bp ∈ (checkAlerts s prices now).1,
      0 < (alookup bp.1.coin prices).getD 0) ∧
    (∀ bp ∈ (checkAlerts s prices now).1, bp.1.coin ≠ a.coin) ∧
    (∀ b ∈ allAlerts s.alerts, b.triggered = false →
      0 < (alookup b.coin prices).getD 0 →
      conditionMet b ((alookup b.coin prices).getD 0) = true →
      ({ b with triggered := true }, (alookup b.coin prices).getD 0) ∈
        (checkAlerts s prices now).1) := by
  have hkeep : evalAlert prices a = (a, none) := evalAlert_of_invalid h0 hp
  have hpos2 : ∀ bp ∈ (checkAlerts s prices now).1,
      0 < (alookup bp.1.coin prices).getD 0 := by
    intro bp hbp
    obtain ⟨b, hb, ht, hpos, _, heq⟩ := checkAlerts_fst_mem hbp
    rw [heq]
    simpa using hpos
  refine ⟨checkAlerts_retains_unfired ha h0 (by rw [hkeep]), hpos2, ?_, ?_⟩
  · intro bp hbp hcoin
    have hgt := hpos2 bp hbp
    rw [hcoin] at hgt
    exact absurd hp (not_le.mpr hgt)
  · intro b hb hb0 hbp hbc
    exact checkAlerts_fires hb hb0 (evalAlert_snd_of_fired hb0 hbp hbc)

/-- Witness for C9: with one alert on symbol "XXX" (no price this cycle)
and one on "BTC" (price 150), the "XXX" alert is skipped unchanged while
the "BTC" alert still fires. -/
theorem c9_witness :
    ((⟨1, 7, "XXX", "above", 100, 0, false⟩ : Alert) ∈
      allAlerts ([("7", [⟨1, 7, "XXX", "above", 100, 0, false⟩,
        ⟨2, 7, "BTC", "above", 100, 0, false⟩])] :
          List (String × List Alert))) ∧
    ((alookup "XXX" [("BTC", (150 : ℚ))]).getD 0 ≤ 0) ∧
    ((⟨1, 7, "XXX", "above", 100, 0, false⟩ : Alert) ∈
      allAlerts (checkAlerts
        ⟨[("7", [⟨1, 7, "XXX", "above", 100, 0, false⟩,
          ⟨2, 7, "BTC", "above", 100, 0, false⟩])], 3⟩
        [("BTC", (150 : ℚ))] 0).2.alerts ∧
    (∀ bp ∈ (checkAlerts
        ⟨[("7", [⟨1, 7, "XXX", "above", 100, 0, false⟩,
          ⟨2, 7, "BTC", "above", 100, 0, false⟩])], 3⟩
        [("BTC", (150 : ℚ))] 0).1,
      0 < (alookup bp.1.coin [("BTC", (150 : ℚ))]).getD 0) ∧
    (∀ bp ∈ (checkAlerts
        ⟨[("7", [⟨1, 7, "XXX", "above", 100, 0, false⟩,
          ⟨2, 7, "BTC", "above", 100, 0, false⟩])], 3⟩
        [("BTC", (150 : ℚ))] 0).1, bp.1.coin ≠ "XXX") ∧
    (∀ b ∈ allAlerts ([("7", [⟨1, 7, "XXX", "above", 100, 0, false⟩,
        ⟨2, 7, "BTC", "above", 100, 0, false⟩])] :
          List (String × List Alert)), b.triggered = false →
      0 < (alookup b.coin [("BTC", (150 : ℚ))]).getD 0 →
      conditionMet b ((alookup b.coin [("BTC", (150 : ℚ))]).getD 0) = true →
      ({ b with triggered := true },
        (alookup b.coin [("BTC", (150 : ℚ))]).getD 0) ∈
        (checkAlerts
          ⟨[("7", [⟨1, 7, "XXX", "above", 100, 0, false⟩,
            ⟨2, 7, "BTC", "above", 100, 0, false⟩])], 3⟩
          [("BTC", (150 : ℚ))] 0).1)) :=
  ⟨by decide, by decide,
   c9_invalid_price_skips_symbol
     ⟨[("7", [⟨1, 7, "XXX", "above", 100, 0, false⟩,
       ⟨2, 7, "BTC", "above", 100, 0, false⟩])], 3⟩
     [("BTC", (150 : ℚ))] 0 ⟨1, 7, "XXX", "above", 100, 0, false⟩
     (by decide) rfl (by decide)⟩

/-- C10: frame property of the sweep — every record still stored after
`check_alerts` is a record stored before, unchanged except possibly for a
`triggered` flip from false to true (id, owner, coin, condition, price and
created_at are preserved), and neither `check_alerts` nor `remove_alert`
changes `next_id`. -/
theorem c10_sweep_frame (s : AlertSystem) (prices : List (String × ℚ))
    (now : Int) (uid : Int) (aid : Nat) :
    (checkAlerts s prices now).2.next_id = s.next_id ∧
    (removeAlert s uid aid).2.next_id = s.next_id ∧
    (∀ b ∈ allAlerts (checkAlerts s prices now).2.alerts,
      ∃ a ∈ allAlerts s.alerts,
        b = a ∨ (a.triggered = false ∧ b = { a with triggered := true })) := by
  refine ⟨checkAlerts_next_id s prices now, ?_,
    fun b hb => checkAlerts_snd_mem hb⟩
  rcases hrf : removeFirst aid ((alookup (toString uid) s.alerts).getD [])
    with _ | b
  · unfold removeAlert; rw [hrf]
  · unfold removeAlert; rw [hrf]
